import Mathlib

/-!
Verification of the zenodb ingest core (`insert.go`) and query planner
(`planner/planner.go`) against their natural-language specification.

Bytes are modelled as natural numbers, byte strings (`bytemap.ByteMap`,
WAL frames) as `List Nat`, and timestamps as nanosecond counts.  Copying
a byte slice is the identity under value semantics, so "byte-identity
after copy" is plain equality of lists.
-/

namespace Zeno

/-- Modelled from the spec: the collaborator `encoding` package writes
fixed-width big-endian integers (`EncodeTime` / `WriteInt32`); `encBE k n`
is the `k`-byte big-endian encoding of `n` (truncated mod `256^k`, as the
Go conversions to `uint64` / `uint32` truncate). -/
def encBE : Nat → Nat → List Nat
  | 0, _ => []
  | k + 1, n => encBE k (n / 256) ++ [n % 256]

/-- Big-endian decoding, as done by `encoding.Binary.Uint64/Uint32`. -/
def decBE (bs : List Nat) : Nat :=
  bs.foldl (fun acc b => acc * 256 + b) 0

/-- Modelled from the spec: `encoding.Read(data, n)` returns the first `n`
bytes and the remainder. -/
def encRead (data : List Nat) (n : Nat) : List Nat × List Nat :=
  (data.take n, data.drop n)

/-- Modelled from the spec: `encoding.ReadInt32` reads a 4-byte length
prefix and returns it with the remainder. -/
def readInt32 (data : List Nat) : Nat × List Nat :=
  (decBE (data.take 4), data.drop 4)

/-- `encoding.EncodeTime`: 8-byte big-endian timestamp. -/
def enc64 (n : Nat) : List Nat := encBE 8 n

/-- `encoding.WriteInt32`: 4-byte big-endian length. -/
def enc32 (n : Nat) : List Nat := encBE 4 n

/-- The WAL frame written by `doInsertRaw` (insert.go:88-96):
`enc64(ts) ++ enc32(len dims) ++ dims ++ enc32(len vals) ++ vals`. -/
def doInsertRawFrame (ts : Nat) (dims vals : List Nat) : List Nat :=
  enc64 ts ++ enc32 dims.length ++ dims ++ enc32 vals.length ++ vals

/-- The decode steps of `table.insert` (insert.go:176-197): read the
timestamp, the length-prefixed dims and the length-prefixed vals.  The
copies into fresh ByteMaps are the identity under value semantics. -/
def insertDecode (data : List Nat) : Nat × List Nat × List Nat :=
  let p := encRead data 8
  let ts := decBE p.1
  let q := readInt32 p.2
  let d := encRead q.2 q.1
  let r := readInt32 d.2
  let v := encRead r.2 r.1
  (ts, d.1, v.1)

theorem encBE_length (k n : Nat) : (encBE k n).length = k := by
  induction k generalizing n with
  | zero => simp [encBE]
  | succ k ih => simp [encBE, ih]

theorem decBE_append_byte (l : List Nat) (b : Nat) :
    decBE (l ++ [b]) = decBE l * 256 + b := by
  simp [decBE, List.foldl_append]

theorem decBE_encBE (k n : Nat) : decBE (encBE k n) = n % 256 ^ k := by
  induction k generalizing n with
  | zero => simp [encBE, decBE, Nat.mod_one]
  | succ k ih =>
    rw [encBE, decBE_append_byte, ih, (Nat.mod_mul_right_div_self n 256 (256 ^ k)).symm,
      Nat.pow_succ, Nat.mul_comm 256 (256 ^ k)]
    have hdvd : (256 : Nat) ∣ 256 ^ k * 256 := ⟨256 ^ k, by ring⟩
    rw [(Nat.mod_mod_of_dvd n hdvd).symm]
    generalize n % (256 ^ k * 256) = x
    omega

theorem encRead_exact (a b : List Nat) (n : Nat) (h : a.length = n) :
    encRead (a ++ b) n = (a, b) := by
  subst h
  simp [encRead]

theorem readInt32_exact (n : Nat) (b : List Nat) (h : n < 2 ^ 32) :
    readInt32 (enc32 n ++ b) = (n, b) := by
  have h4 : (enc32 n).length = 4 := encBE_length 4 n
  unfold readInt32
  rw [List.take_append_of_le_length (by omega), List.drop_append_of_le_length (by omega)]
  rw [List.take_of_length_le (by omega), List.drop_eq_nil_of_le (by omega)]
  simp only [List.append_nil, List.nil_append]
  have := decBE_encBE 4 n
  rw [enc32, this, Nat.mod_eq_of_lt (by norm_num at h ⊢; omega)]

/-- C1: WAL round-trip.  Encoding a point `(ts, dims, vals)` as a frame
with `doInsertRaw` and decoding that frame with `table.insert` recovers
exactly the original timestamp, dims bytes, and vals bytes. -/
theorem wal_roundtrip (ts : Nat) (dims vals : List Nat)
    (hts : ts < 2 ^ 64) (hd : dims.length < 2 ^ 32) (hv : vals.length < 2 ^ 32) :
    insertDecode (doInsertRawFrame ts dims vals) = (ts, dims, vals) := by
  have e64 : (enc64 ts).length = 8 := encBE_length 8 ts
  have hdec64 : decBE (enc64 ts) = ts := by
    have hp : (2 : Nat) ^ 64 = 256 ^ 8 := by norm_num
    rw [enc64, decBE_encBE, Nat.mod_eq_of_lt (by omega)]
  have h1 : encRead (doInsertRawFrame ts dims vals) 8 =
      (enc64 ts, enc32 dims.length ++ (dims ++ (enc32 vals.length ++ vals))) := by
    rw [doInsertRawFrame]
    simp only [List.append_assoc]
    rw [show (8 : Nat) = (enc64 ts).length from e64.symm]
    exact encRead_exact _ _ _ rfl
  have h2 := readInt32_exact dims.length (dims ++ (enc32 vals.length ++ vals)) hd
  have h3 : encRead (dims ++ (enc32 vals.length ++ vals)) dims.length =
      (dims, enc32 vals.length ++ vals) := encRead_exact _ _ _ rfl
  have h4 := readInt32_exact vals.length vals hv
  have h5 : encRead vals vals.length = (vals, []) := by
    simpa using encRead_exact vals [] vals.length rfl
  simp only [insertDecode, h1, h2, h3, h4, h5, hdec64]

/-- Witness for C1 at a concrete point. -/
theorem wal_roundtrip_witness :
    (5 : Nat) < 2 ^ 64 ∧ ([1, 2] : List Nat).length < 2 ^ 32 ∧
      ([3] : List Nat).length < 2 ^ 32 ∧
      insertDecode (doInsertRawFrame 5 [1, 2] [3]) = (5, [1, 2], [3]) :=
  ⟨by norm_num, by norm_num, by norm_num,
    wal_roundtrip 5 [1, 2] [3] (by norm_num) (by norm_num) (by norm_num)⟩

/-! ## Table ingest state (insert.go:106-258)

The row store is modelled as the list of `insert` records it has been
handed, in order; stats are the per-table counters; the clock is the
maximum timestamp observed (`db.clock.Advance`). -/

/-- Per-table stats counters (the ones touched by insert.go). -/
structure Stats where
  filteredPoints : Nat
  insertedPoints : Nat
  queuedPoints : Nat
deriving DecidableEq

/-- One record handed to `rowStore.insert`: `&insert{key, tsparams, dims,
offset, source}`.  A skip marker has all three payload fields nil. -/
structure RowInsert where
  key : Option (List Nat)
  tsparams : Option (Nat × List Nat)
  dims : Option (List Nat)
  offset : Nat
  source : Nat
deriving DecidableEq

/-- Mutable table state threaded through the ingest operations. -/
structure TableState where
  stats : Stats
  clock : Nat
  rowStore : List RowInsert
deriving DecidableEq

/-- One `GroupBy` entry of a table: a name and the evaluation of its
expression against the dims (collaborator `Expr.Eval`; `none` models a nil
result). -/
structure GroupByEntry where
  name : String
  eval : List Nat → Option (List Nat)

/-- The table configuration consulted by the ingest path.
`truncateBefore` and the `WHERE` evaluation live outside insert.go and are
passed in as values; the claims quantify over them. -/
structure TableCtx where
  truncateBefore : Nat
  whereClause : Option (List Nat → Bool)
  groupBy : List GroupByEntry
  inPartition : List Nat → Bool

/-- Modelled from the spec: collaborator `bytemap.FromSortedKeysAndValues`
builds a ByteMap from (name, value) pairs; modelled as a length-prefixed
concatenation of the pairs (its internals are irrelevant to the claims). -/
def bmFromSorted (pairs : List (String × List Nat)) : List Nat :=
  pairs.flatMap fun p =>
    enc32 p.1.length ++ p.1.data.map Char.toNat ++ enc32 p.2.length ++ p.2

/-- The row key built by `doInsert` (insert.go:227-242): the dims
themselves when the table has no group-by, else the ByteMap of the
non-nil group-by evaluations. -/
def doInsertKey (ctx : TableCtx) (dims : List Nat) : List Nat :=
  if ctx.groupBy.isEmpty then dims
  else bmFromSorted (ctx.groupBy.filterMap fun g => (g.eval dims).map fun v => (g.name, v))

/-- `table.doInsert` (insert.go:206-252): evaluate the table `WHERE`
(counting a filtered point), advance the clock, build the key, enqueue the
row and count it as inserted. -/
def doInsert (ctx : TableCtx) (st : TableState) (ts : Nat) (dims vals : List Nat)
    (offset source : Nat) : Bool × TableState :=
  if (match ctx.whereClause with | some w => !w dims | none => false) then
    (false, { st with stats := { st.stats with filteredPoints := st.stats.filteredPoints + 1 } })
  else
    (true,
      { stats := { st.stats with insertedPoints := st.stats.insertedPoints + 1 }
        clock := max st.clock ts
        rowStore := st.rowStore ++
          [⟨some (doInsertKey ctx dims), some (ts, vals), some dims, offset, source⟩] })

/-- `table.insert` (insert.go:168-199): decode the frame; drop it when the
timestamp is before `truncateBefore` or (on a follower) out of partition;
otherwise copy dims/vals (identity here) and call `doInsert`. -/
def tableInsert (ctx : TableCtx) (st : TableState) (data : List Nat)
    (isFollower : Bool) (offset source : Nat) : Bool × TableState :=
  let p := encRead data 8
  let ts := decBE p.1
  if ts < ctx.truncateBefore then (false, st)
  else
    let q := readInt32 p.2
    let d := encRead q.2 q.1
    if isFollower && !ctx.inPartition d.1 then (false, st)
    else
      let r := readInt32 d.2
      let v := encRead r.2 r.1
      doInsert ctx st ts d.1 v.1 offset source

/-- The skip marker enqueued by `table.skip` (insert.go:202-204). -/
def skipMarker (offset source : Nat) : RowInsert := ⟨none, none, none, offset, source⟩

/-- `table.skip`: enqueue a skip marker to the row store. -/
def tableSkip (st : TableState) (offset source : Nat) : TableState :=
  { st with rowStore := st.rowStore ++ [skipMarker offset source] }

/-- `table.recordQueued` (insert.go:254-258). -/
def recordQueued (st : TableState) : TableState :=
  { st with stats := { st.stats with queuedPoints := st.stats.queuedPoints + 1 } }

/-- One WAL read handed to the insert worker (insert.go:106-110);
`data = none` models a nil read. -/
structure WalReadItem where
  data : Option (List Nat)
  offset : Nat
  source : Nat

/-- One iteration of the insert worker loop `processInserts`
(insert.go:140-152): ignore nil data, call `table.insert`, and on a false
result acknowledge the frame with `skip`. -/
def processOne (ctx : TableCtx) (isFollower : Bool) (st : TableState)
    (item : WalReadItem) : TableState :=
  match item.data with
  | none => st
  | some d =>
    let r := tableInsert ctx st d isFollower item.offset item.source
    if r.1 then r.2 else tableSkip r.2 item.offset item.source

/-- The ingest operations that touch a table's state. -/
inductive TableOp where
  | opDoInsert (ts : Nat) (dims vals : List Nat) (offset source : Nat)
  | opProcess (isFollower : Bool) (item : WalReadItem)
  | opRecordQueued
  | opSkip (offset source : Nat)

/-- Apply one ingest operation to the table state. -/
def tableStep (ctx : TableCtx) (st : TableState) : TableOp → TableState
  | .opDoInsert ts dims vals o s => (doInsert ctx st ts dims vals o s).2
  | .opProcess fol item => processOne ctx fol st item
  | .opRecordQueued => recordQueued st
  | .opSkip o s => tableSkip st o s

/-- Run a sequence of ingest operations. -/
def runOps (ctx : TableCtx) (st : TableState) (ops : List TableOp) : TableState :=
  ops.foldl (tableStep ctx) st

/-- Pointwise order on the stats counters. -/
def statsLe (a b : Stats) : Prop :=
  a.filteredPoints ≤ b.filteredPoints ∧ a.insertedPoints ≤ b.insertedPoints ∧
    a.queuedPoints ≤ b.queuedPoints

/-- Run a sequence of `doInsert` calls, returning the final state and the
number of calls that returned true. -/
def runDoInserts (ctx : TableCtx) (st : TableState) :
    List (Nat × List Nat × List Nat × Nat × Nat) → TableState × Nat
  | [] => (st, 0)
  | c :: rest =>
    let r := doInsert ctx st c.1 c.2.1 c.2.2.1 c.2.2.2.1 c.2.2.2.2
    let nxt := runDoInserts ctx r.2 rest
    (nxt.1, (if r.1 then 1 else 0) + nxt.2)

theorem doInsert_stats_le (ctx : TableCtx) (st : TableState) (ts : Nat)
    (dims vals : List Nat) (o s : Nat) :
    statsLe st.stats (doInsert ctx st ts dims vals o s).2.stats := by
  unfold doInsert statsLe
  split <;> simp

theorem doInsert_inserted (ctx : TableCtx) (st : TableState) (ts : Nat)
    (dims vals : List Nat) (o s : Nat) :
    (doInsert ctx st ts dims vals o s).2.stats.insertedPoints =
      st.stats.insertedPoints + (if (doInsert ctx st ts dims vals o s).1 then 1 else 0) := by
  unfold doInsert
  split <;> simp

theorem statsLe_refl (a : Stats) : statsLe a a :=
  ⟨le_refl _, le_refl _, le_refl _⟩

theorem statsLe_trans {a b c : Stats} (h1 : statsLe a b) (h2 : statsLe b c) :
    statsLe a c :=
  ⟨h1.1.trans h2.1, h1.2.1.trans h2.2.1, h1.2.2.trans h2.2.2⟩

theorem tableSkip_stats (st : TableState) (o s : Nat) :
    (tableSkip st o s).stats = st.stats := rfl

theorem tableInsert_stats_le (ctx : TableCtx) (st : TableState) (data : List Nat)
    (fol : Bool) (o s : Nat) :
    statsLe st.stats (tableInsert ctx st data fol o s).2.stats := by
  simp only [tableInsert]
  split
  · exact statsLe_refl _
  · split
    · exact statsLe_refl _
    · exact doInsert_stats_le ..

theorem processOne_stats_le (ctx : TableCtx) (fol : Bool) (st : TableState)
    (item : WalReadItem) :
    statsLe st.stats (processOne ctx fol st item).stats := by
  obtain ⟨dOpt, io, isrc⟩ := item
  cases dOpt with
  | none => exact statsLe_refl _
  | some d =>
    show statsLe st.stats
      (if (tableInsert ctx st d fol io isrc).1 then (tableInsert ctx st d fol io isrc).2
        else tableSkip (tableInsert ctx st d fol io isrc).2 io isrc).stats
    split
    · exact tableInsert_stats_le ..
    · rw [tableSkip_stats]
      exact tableInsert_stats_le ..

theorem tableStep_stats_le (ctx : TableCtx) (st : TableState) (op : TableOp) :
    statsLe st.stats (tableStep ctx st op).stats := by
  cases op with
  | opDoInsert ts dims vals o s => exact doInsert_stats_le ..
  | opProcess fol item => exact processOne_stats_le ..
  | opRecordQueued => unfold tableStep recordQueued statsLe; simp
  | opSkip o s => unfold tableStep tableSkip statsLe; simp

theorem runOps_stats_le (ctx : TableCtx) (st : TableState) (ops : List TableOp) :
    statsLe st.stats (runOps ctx st ops).stats := by
  induction ops generalizing st with
  | nil => exact ⟨le_refl _, le_refl _, le_refl _⟩
  | cons op rest ih =>
    exact statsLe_trans (tableStep_stats_le ctx st op) (ih (tableStep ctx st op))

theorem runDoInserts_inserted (ctx : TableCtx) (st : TableState)
    (calls : List (Nat × List Nat × List Nat × Nat × Nat)) :
    (runDoInserts ctx st calls).1.stats.insertedPoints =
      st.stats.insertedPoints + (runDoInserts ctx st calls).2 := by
  induction calls generalizing st with
  | nil => simp [runDoInserts]
  | cons c rest ih =>
    unfold runDoInserts
    simp only
    rw [ih, doInsert_inserted]
    omega

theorem frame_ts (ts : Nat) (dims vals : List Nat) (hts : ts < 2 ^ 64) :
    decBE (encRead (doInsertRawFrame ts dims vals) 8).1 = ts := by
  have e64 : (enc64 ts).length = 8 := encBE_length 8 ts
  have h1 : encRead (doInsertRawFrame ts dims vals) 8 =
      (enc64 ts, enc32 dims.length ++ (dims ++ (enc32 vals.length ++ vals))) := by
    rw [doInsertRawFrame]
    simp only [List.append_assoc]
    rw [show (8 : Nat) = (enc64 ts).length from e64.symm]
    exact encRead_exact _ _ _ rfl
  rw [h1]
  have hp : (2 : Nat) ^ 64 = 256 ^ 8 := by norm_num
  rw [enc64, decBE_encBE, Nat.mod_eq_of_lt (by omega)]

/-- C4: staleness drop.  A frame whose decoded timestamp is before
`truncateBefore` makes `table.insert` return false with the table state
untouched (so `doInsert` is never reached and `InsertedPoints` does not
move), and the worker then acknowledges it by enqueuing a skip marker —
key, tsparams and dims all nil — carrying the frame's offset and source. -/
theorem stale_frame_skipped (ctx : TableCtx) (st : TableState) (isFollower : Bool)
    (ts : Nat) (dims vals : List Nat) (offset source : Nat)
    (hts : ts < 2 ^ 64) (hstale : ts < ctx.truncateBefore) :
    tableInsert ctx st (doInsertRawFrame ts dims vals) isFollower offset source = (false, st) ∧
      processOne ctx isFollower st ⟨some (doInsertRawFrame ts dims vals), offset, source⟩ =
        { st with rowStore := st.rowStore ++ [skipMarker offset source] } := by
  have hd := frame_ts ts dims vals hts
  have h1 : tableInsert ctx st (doInsertRawFrame ts dims vals) isFollower offset source
      = (false, st) := by
    simp only [tableInsert, hd]
    rw [if_pos hstale]
  refine ⟨h1, ?_⟩
  simp only [processOne, h1]
  rfl

/-- Witness for C4 at a concrete stale frame. -/
theorem stale_frame_skipped_witness :
    (5 : Nat) < 2 ^ 64 ∧
      (5 : Nat) < (TableCtx.mk 10 none [] (fun _ => true)).truncateBefore ∧
      processOne (TableCtx.mk 10 none [] (fun _ => true)) false
          (TableState.mk ⟨0, 0, 0⟩ 0 []) ⟨some (doInsertRawFrame 5 [1] [2]), 7, 3⟩ =
        { TableState.mk ⟨0, 0, 0⟩ 0 [] with
            rowStore := (TableState.mk ⟨0, 0, 0⟩ 0 []).rowStore ++ [skipMarker 7 3] } :=
  ⟨by norm_num, by norm_num,
    (stale_frame_skipped (TableCtx.mk 10 none [] (fun _ => true))
      (TableState.mk ⟨0, 0, 0⟩ 0 []) false 5 [1] [2] 7 3 (by norm_num) (by norm_num)).2⟩

/-- C9: the stats counters are monotonic non-decreasing under every ingest
operation, and after a sequence of `doInsert` calls `InsertedPoints` has
grown by exactly the number of calls that returned true. -/
theorem stats_monotone_and_exact (ctx : TableCtx) (st : TableState) :
    (∀ ops : List TableOp, statsLe st.stats (runOps ctx st ops).stats) ∧
      (∀ calls : List (Nat × List Nat × List Nat × Nat × Nat),
        (runDoInserts ctx st calls).1.stats.insertedPoints =
          st.stats.insertedPoints + (runDoInserts ctx st calls).2) :=
  ⟨fun ops => runOps_stats_le ctx st ops, fun calls => runDoInserts_inserted ctx st calls⟩

/-! ## Insert normalizer (`DB.InsertRaw`, insert.go:21-104)

The caller's `vals` ByteMap is modelled as an association list of decoded
values, polymorphic in the float type `F` (the claims only move float
values around, never compute with them); `promote` is Go's
`float64(intValue)` conversion. -/

/-- A decoded value of the caller-supplied `vals` map, as produced by
`bytemap.IterateValues`: a float, an int, a float slice, an int slice, or
a value of any other (unsupported) type. -/
inductive InVal (F : Type) where
  | float (x : F)
  | intVal (n : Int)
  | floats (xs : List F)
  | ints (ns : List Int)
  | otherVal
deriving DecidableEq

/-- One WAL append performed by `doInsertRaw` on behalf of `InsertRaw`:
the timestamp, dims, and the vals map written. -/
structure WalWrite (F : Type) where
  ts : Nat
  dims : List Nat
  vals : List (String × F)
deriving DecidableEq

/-- The iteration of insert.go:42-76: accumulate the main vals map and
perform a separate WAL write for every additional element of a slice
value.  The third component is true when the iteration panics on `v[0]` of
an empty slice; `writes` then holds the appends made before the panic. -/
def insertRawLoop {F : Type} (promote : Int → F) (ts : Nat) (dims : List Nat) :
    List (String × InVal F) → List (String × F) → List (WalWrite F) →
    List (String × F) × List (WalWrite F) × Bool
  | [], main, writes => (main, writes, false)
  | (k, v) :: rest, main, writes =>
    match v with
    | .float x => insertRawLoop promote ts dims rest (main ++ [(k, x)]) writes
    | .intVal n => insertRawLoop promote ts dims rest (main ++ [(k, promote n)]) writes
    | .floats [] => (main, writes, true)
    | .floats (a :: more) =>
      insertRawLoop promote ts dims rest (main ++ [(k, a)])
        (writes ++ more.map fun ai => ⟨ts, dims, [(k, ai)]⟩)
    | .ints [] => (main, writes, true)
    | .ints (a :: more) =>
      insertRawLoop promote ts dims rest (main ++ [(k, promote a)])
        (writes ++ more.map fun ai => ⟨ts, dims, [(k, promote ai)]⟩)
    | .otherVal => insertRawLoop promote ts dims rest main writes

/-- The failure modes of `InsertRaw` before any WAL activity. -/
inductive InsertErr where
  | insertOnFollower
  | unknownStream
deriving DecidableEq

/-- The observable outcome of one `InsertRaw` call: an early error (no WAL
writes at all), a panic part-way through (with the writes made before it),
or normal completion with the full list of WAL writes. -/
inductive InsertOutcome (F : Type) where
  | failed (e : InsertErr)
  | panicked (writes : List (WalWrite F))
  | ok (writes : List (WalWrite F))
deriving DecidableEq

/-- The WAL writes an outcome performed. -/
def writesOf {F : Type} : InsertOutcome F → List (WalWrite F)
  | .failed _ => []
  | .panicked w => w
  | .ok w => w

/-- The stream-name normalization of insert.go:26:
`strings.TrimSpace(strings.ToLower(stream))`. -/
def normalizeStream (s : String) : String := s.toLower.trim

/-- `DB.InsertRaw` (insert.go:21-86): reject inserts on a follower, look
up the WAL under the normalized stream name, then iterate the vals,
writing one sub-frame per extra slice element and one main frame carrying
every first/scalar value (provided at least one was included). -/
def InsertRaw {F : Type} (promote : Int → F) (follow : Bool)
    (streams : String → Option Unit) (stream : String) (ts : Nat)
    (dims : List Nat) (vals : List (String × InVal F)) : InsertOutcome F :=
  if follow then .failed .insertOnFollower
  else
    match streams (normalizeStream stream) with
    | none => .failed .unknownStream
    | some _ =>
      match insertRawLoop promote ts dims vals [] [] with
      | (_, writes, true) => .panicked writes
      | (main, writes, false) =>
        .ok (writes ++ if main.isEmpty then [] else [⟨ts, dims, main⟩])

/-- A scalar (non-slice, supported) value: `float64` or `int`. -/
def isScalar {F : Type} : InVal F → Bool
  | .float _ => true
  | .intVal _ => true
  | _ => false

/-- The main-row contribution of a list of scalar entries: floats as-is,
ints promoted. -/
def scalarVals {F : Type} (promote : Int → F) : List (String × InVal F) → List (String × F)
  | [] => []
  | (k, .float x) :: rest => (k, x) :: scalarVals promote rest
  | (k, .intVal n) :: rest => (k, promote n) :: scalarVals promote rest
  | _ :: rest => scalarVals promote rest

theorem insertRawLoop_scalars {F : Type} (promote : Int → F) (ts : Nat) (dims : List Nat)
    (pre l : List (String × InVal F)) (main : List (String × F)) (writes : List (WalWrite F))
    (hpre : ∀ p ∈ pre, isScalar p.2 = true) :
    insertRawLoop promote ts dims (pre ++ l) main writes =
      insertRawLoop promote ts dims l (main ++ scalarVals promote pre) writes := by
  induction pre generalizing main with
  | nil => simp [scalarVals]
  | cons p rest ih =>
    obtain ⟨k, v⟩ := p
    have hs : isScalar v = true := hpre (k, v) (by simp)
    cases v with
    | float x =>
      rw [List.cons_append]
      rw [show insertRawLoop promote ts dims ((k, InVal.float x) :: (rest ++ l)) main writes =
        insertRawLoop promote ts dims (rest ++ l) (main ++ [(k, x)]) writes from rfl]
      rw [ih _ (fun p hp => hpre p (by simp [hp]))]
      simp [scalarVals]
    | intVal n =>
      rw [List.cons_append]
      rw [show insertRawLoop promote ts dims ((k, InVal.intVal n) :: (rest ++ l)) main writes =
        insertRawLoop promote ts dims (rest ++ l) (main ++ [(k, promote n)]) writes from rfl]
      rw [ih _ (fun p hp => hpre p (by simp [hp]))]
      simp [scalarVals]
    | floats xs => simp [isScalar] at hs
    | ints ns => simp [isScalar] at hs
    | otherVal => simp [isScalar] at hs

theorem insertRawLoop_all_scalars {F : Type} (promote : Int → F) (ts : Nat) (dims : List Nat)
    (l : List (String × InVal F)) (main : List (String × F)) (writes : List (WalWrite F))
    (hl : ∀ p ∈ l, isScalar p.2 = true) :
    insertRawLoop promote ts dims l main writes =
      (main ++ scalarVals promote l, writes, false) := by
  have := insertRawLoop_scalars promote ts dims l [] main writes hl
  simpa [insertRawLoop] using this

/-- C5: vector expansion.  When `vals` holds a nonempty float (or int)
slice under key `k` amid otherwise scalar fields, the first element is
folded into the single main row together with all the scalar fields, and
each further element `ai` yields its own WAL write whose vals are exactly
`{k: ai}` (ints promoted), with dims and timestamp unchanged. -/
theorem vector_expansion {F : Type} (promote : Int → F) (streams : String → Option Unit)
    (stream : String) (ts : Nat) (dims : List Nat) (u : Unit)
    (pre post : List (String × InVal F)) (k : String) (a : F) (more : List F)
    (n : Int) (ns : List Int)
    (hpre : ∀ p ∈ pre, isScalar p.2 = true) (hpost : ∀ p ∈ post, isScalar p.2 = true)
    (hs : streams (normalizeStream stream) = some u) :
    InsertRaw promote false streams stream ts dims
        (pre ++ (k, InVal.floats (a :: more)) :: post) =
      .ok ((more.map fun ai => ⟨ts, dims, [(k, ai)]⟩) ++
        [⟨ts, dims, scalarVals promote pre ++ (k, a) :: scalarVals promote post⟩]) ∧
    InsertRaw promote false streams stream ts dims
        (pre ++ (k, InVal.ints (n :: ns)) :: post) =
      .ok ((ns.map fun ai => ⟨ts, dims, [(k, promote ai)]⟩) ++
        [⟨ts, dims, scalarVals promote pre ++ (k, promote n) :: scalarVals promote post⟩]) := by
  constructor
  · unfold InsertRaw
    rw [if_neg (by simp), hs]
    rw [insertRawLoop_scalars promote ts dims pre _ [] [] hpre]
    rw [show insertRawLoop promote ts dims ((k, InVal.floats (a :: more)) :: post)
        ([] ++ scalarVals promote pre) [] =
      insertRawLoop promote ts dims post (([] ++ scalarVals promote pre) ++ [(k, a)])
        ([] ++ more.map fun ai => ⟨ts, dims, [(k, ai)]⟩) from rfl]
    rw [insertRawLoop_all_scalars promote ts dims post _ _ hpost]
    simp
  · unfold InsertRaw
    rw [if_neg (by simp), hs]
    rw [insertRawLoop_scalars promote ts dims pre _ [] [] hpre]
    rw [show insertRawLoop promote ts dims ((k, InVal.ints (n :: ns)) :: post)
        ([] ++ scalarVals promote pre) [] =
      insertRawLoop promote ts dims post (([] ++ scalarVals promote pre) ++ [(k, promote n)])
        ([] ++ ns.map fun ai => ⟨ts, dims, [(k, promote ai)]⟩) from rfl]
    rw [insertRawLoop_all_scalars promote ts dims post _ _ hpost]
    simp

/-- Witness for C5 on a concrete insert with `F := Int`. -/
theorem vector_expansion_witness :
    (∀ p ∈ ([("s", InVal.intVal 9)] : List (String × InVal Int)), isScalar p.2 = true) ∧
      (fun _ : String => some ()) (normalizeStream "T") = some () ∧
      InsertRaw (fun n => n) false (fun _ => some ()) "T" 11 [2]
          ([("s", InVal.intVal 9)] ++ (("k", InVal.floats [1, 2, 3]) :: [])) =
        .ok ([⟨11, [2], [("k", 2)]⟩, ⟨11, [2], [("k", 3)]⟩] ++
          [⟨11, [2], [("s", 9), ("k", 1)]⟩]) := by
  refine ⟨by decide, rfl, ?_⟩
  have h := (vector_expansion (fun n => n) (fun _ => some ()) "T" 11 [2] ()
    [("s", InVal.intVal 9)] [] "k" 1 [2, 3] 0 []
    (by decide) (by simp) rfl).1
  simpa [scalarVals] using h

/-- C8: insert preconditions.  On a follower-configured DB `InsertRaw`
fails with the insert-on-follower error before consulting the stream
registry; otherwise the stream name is lowercased and trimmed and a failed
lookup yields the unknown-stream error.  In both cases no WAL write is
performed. -/
theorem insert_preconditions {F : Type} (promote : Int → F) (streams : String → Option Unit)
    (stream : String) (ts : Nat) (dims : List Nat) (vals : List (String × InVal F)) :
    (InsertRaw promote true streams stream ts dims vals = .failed .insertOnFollower ∧
      writesOf (InsertRaw promote true streams stream ts dims vals) = []) ∧
    (streams (normalizeStream stream) = none →
      InsertRaw promote false streams stream ts dims vals = .failed .unknownStream ∧
        writesOf (InsertRaw promote false streams stream ts dims vals) = []) := by
  constructor
  · constructor <;> simp [InsertRaw, writesOf]
  · intro h
    constructor <;> simp [InsertRaw, h, writesOf]

/-- Witness for C8 on concrete calls with `F := Int`. -/
theorem insert_preconditions_witness :
    ((fun _ : String => (none : Option Unit)) (normalizeStream "x") = none) ∧
      InsertRaw (fun n : Int => n) true (fun _ => none) "x" 0 [] [] =
        .failed .insertOnFollower ∧
      InsertRaw (fun n : Int => n) false (fun _ => none) "x" 0 [] [] =
        .failed .unknownStream :=
  ⟨rfl,
    (insert_preconditions (fun n : Int => n) (fun _ => none) "x" 0 [] []).1.1,
    ((insert_preconditions (fun n : Int => n) (fun _ => none) "x" 0 [] []).2 rfl).1⟩

/-- C10: an empty slice value reaches `v[0]` with no length guard, so a
call on a non-follower DB with a known stream panics (for both `[]float64`
and `[]int`), having performed no WAL write: the index-out-of-range branch
is reachable from the public interface. -/
theorem empty_vector_panics {F : Type} (promote : Int → F) (streams : String → Option Unit)
    (stream : String) (ts : Nat) (dims : List Nat) (k : String) (u : Unit)
    (rest : List (String × InVal F))
    (hs : streams (normalizeStream stream) = some u) :
    InsertRaw promote false streams stream ts dims ((k, InVal.floats []) :: rest) =
        .panicked [] ∧
      InsertRaw promote false streams stream ts dims ((k, InVal.ints []) :: rest) =
        .panicked [] := by
  constructor <;>
    · unfold InsertRaw
      rw [if_neg (by simp), hs]
      simp [insertRawLoop]

/-- Witness for C10 on a concrete call with `F := Int`. -/
theorem empty_vector_panics_witness :
    ((fun _ : String => some ()) (normalizeStream "t") = some ()) ∧
      InsertRaw (fun n : Int => n) false (fun _ => some ()) "t" 4 [1]
          [("k", InVal.floats [])] = .panicked [] :=
  ⟨rfl,
    (empty_vector_panics (fun n : Int => n) (fun _ => some ()) "t" 4 [1] "k" ()
      [] rfl).1⟩

/-! ## Query planner (`planner/planner.go`)

Instants (`time.Time`) are modelled as `Option Int`: `none` is the zero
time (`IsZero`), `some n` an instant with `UnixNano` equal to `n`.
Durations and resolutions are `Int` nanosecond counts. -/

/-- `UnixNano` of a modelled instant.  The zero `time.Time` has this fixed
(overflowed) `UnixNano` value in Go. -/
def unixNano : Option Int → Int
  | none => -6795364578871345152
  | some n => n

/-- The parsed `FROM` sub-query of a query.  Modelled from the spec: a
nested FROM sub-query the plan builder cannot translate (the code that
detects it is outside planner.go) is carried as `untranslatable`; a
translatable one carries its SQL text and declared fields. -/
inductive FromSub where
  | translatable (sql : String) (fields : List String)
  | untranslatable
deriving DecidableEq

/-- The attributes of a parsed query consulted by `Plan`
(planner/planner.go:29-121). -/
structure PQuery where
  fromName : String
  fromSubQuery : Option FromSub
  asOf : Option Int
  untilT : Option Int
  asOfOffset : Int
  untilOffset : Int
  resolution : Int
  groupByAll : Bool
  hasSpecificFields : Bool
  hasWhere : Bool
  whereSQL : String
  groupByNames : List String
  fieldNames : List String
  orderBy : List String
  offsetQ : Nat
  limitQ : Nat
deriving DecidableEq

/-- What `Plan` reads off a source: `GetAsOf`, `GetUntil`,
`GetResolution`. -/
structure SourceInfo where
  asOf : Option Int
  untilT : Option Int
  resolution : Int
deriving DecidableEq

/-- A pipeline stage wired above the source, in connection order. -/
inductive Stage where
  | filterStage (label : String)
  | groupStage (groupBy : List String) (fields : List String)
      (resolution : Int) (asOf untilT : Option Int)
  | flattenStage
  | sortStage (orderBy : List String)
  | offsetStage (n : Nat)
  | limitStage (n : Nat)
deriving DecidableEq

/-- Whether a stage is a `Group` operator. -/
def isGroup : Stage → Bool
  | .groupStage _ _ _ _ _ => true
  | _ => false

/-- Whether a stage is the `Flatten` operator. -/
def isFlatten : Stage → Bool
  | .flattenStage => true
  | _ => false

/-- planner.go:49-51: a nonzero `AsOfOffset` overwrites `AsOf` with
`now + offset`. -/
def resolveAsOf (q : PQuery) (now : Int) : Option Int :=
  if q.asOfOffset ≠ 0 then some (now + q.asOfOffset) else q.asOf

/-- planner.go:52-54: likewise for `Until`. -/
def resolveUntil (q : PQuery) (now : Int) : Option Int :=
  if q.untilOffset ≠ 0 then some (now + q.untilOffset) else q.untilT

/-- The stage chain `Plan` wires above its chosen source
(planner.go:48-121): optional `Filter`, optional `Group`, mandatory
`Flatten`, then optional `Sort`, `Offset`, `Limit`. -/
def planStages (q : PQuery) (src : SourceInfo) (now : Int) : List Stage :=
  let asOf := resolveAsOf q now
  let untl := resolveUntil q now
  let asOfChanged := asOf.isSome && (unixNano asOf != unixNano src.asOf)
  let untilChanged := untl.isSome && (unixNano untl != unixNano src.untilT)
  let resolutionChanged := (q.resolution != 0) && (q.resolution != src.resolution)
  (if q.hasWhere then [Stage.filterStage q.whereSQL] else []) ++
    (if asOfChanged || untilChanged || resolutionChanged || !q.groupByAll ||
        q.hasSpecificFields then
      [Stage.groupStage q.groupByNames q.fieldNames q.resolution asOf untl] else []) ++
    [Stage.flattenStage] ++
    (if 0 < q.orderBy.length then [Stage.sortStage q.orderBy] else []) ++
    (if 0 < q.offsetQ then [Stage.offsetStage q.offsetQ] else []) ++
    (if 0 < q.limitQ then [Stage.limitStage q.limitQ] else [])

/-- The source a plan iterates: a registry table, or an `Unflatten` over a
recursively planned sub-query. -/
inductive PlanSrc where
  | table (name : String)
  | unflatten (flds : List String) (innerSrc : PlanSrc) (innerStages : List Stage)
deriving DecidableEq

/-- Planning failures. -/
inductive PlanErr where
  | parseFailure (msg : String)
  | nestedFromSubquery
  | fuelExhausted
deriving DecidableEq

/-- The collaborators `Plan` calls out to: the SQL parser, the per-table
`Now`, and the source's `GetAsOf`/`GetUntil`/`GetResolution`. -/
structure PlannerOpts where
  parse : String → Except String PQuery
  now : String → Int
  srcInfo : PlanSrc → SourceInfo

/-- `Plan` (planner.go:29-122), with explicit recursion fuel for the
recursive planning of `FROM` sub-queries (Go recurses on the sub-query's
SQL text, which structurally need not shrink). -/
def plan (opts : PlannerOpts) : Nat → String → Except PlanErr (PlanSrc × List Stage)
  | 0, _ => .error .fuelExhausted
  | fuel + 1, sqlString =>
    match opts.parse sqlString with
    | .error e => .error (.parseFailure e)
    | .ok q =>
      let srcResult : Except PlanErr PlanSrc :=
        match q.fromSubQuery with
        | some (.translatable sql flds) =>
          match plan opts fuel sql with
          | .error e => .error e
          | .ok sub => .ok (.unflatten flds sub.1 sub.2)
        | some .untranslatable => .error .nestedFromSubquery
        | none => .ok (.table q.fromName)
      match srcResult with
      | .error e => .error e
      | .ok src => .ok (src, planStages q (opts.srcInfo src) (opts.now q.fromName))

/-! ## Filter predicate with one-shot sub-queries (planner.go:60-84) -/

/-- The error a sub-query run can report; `deadlineExceeded` is
`core.ErrDeadlineExceeded`. -/
inductive SubErr where
  | deadlineExceeded
  | otherErr (msg : String)
deriving DecidableEq

/-- planner.go:77-78: `result := query.Where.Eval(key);
return result != nil && result.(bool), nil`. -/
def includeEval (whereEval : List Nat → Option Bool) (key : List Nat) : Bool :=
  match whereEval key with
  | some b => b
  | none => false

/-- One invocation of the filter's `Include` predicate: the
compare-and-swap on `hasRunSubqueries` runs the sub-queries exactly when
the latch was still 0; a deadline-exceeded result is ignored, any other
error is returned with a false result; otherwise the `Where` expression is
evaluated against the key.  Returns the new latch value, the boolean
result, and the returned error. -/
def includeStep (runSub : Option SubErr) (whereEval : List Nat → Option Bool)
    (hasRun : Bool) (key : List Nat) : Bool × Bool × Option SubErr :=
  if hasRun then (true, includeEval whereEval key, none)
  else
    match runSub with
    | some e =>
      if e = SubErr.deadlineExceeded then (true, includeEval whereEval key, none)
      else (true, false, some e)
    | none => (true, includeEval whereEval key, none)

/-- A sequence of `Include` invocations (in the linearization order the
atomic compare-and-swap imposes), counting how many of them ran the
sub-queries. -/
def includeTrace (runSub : Option SubErr) (whereEval : List Nat → Option Bool) :
    List (List Nat) → Bool → Bool × Nat
  | [], hasRun => (hasRun, 0)
  | key :: rest, hasRun =>
    let ran := !hasRun
    let r := includeStep runSub whereEval hasRun key
    let nxt := includeTrace runSub whereEval rest r.1
    (nxt.1, (if ran then 1 else 0) + nxt.2)

/-- C2: group re-plan rule.  The stage chain `Plan` wires contains a
`Group` operator exactly when the offset-resolved `AsOf`, `Until` or
`Resolution` of the query differs from the source's (zero meaning no
change), or the query is not group-by-all, or it declares specific fields;
and any such `Group` sits strictly below `Flatten` (so between the source
and `Flatten`). -/
theorem group_replan_rule (q : PQuery) (src : SourceInfo) (now : Int) :
    ((planStages q src now).any isGroup = true ↔
      ((resolveAsOf q now).isSome = true ∧
          unixNano (resolveAsOf q now) ≠ unixNano src.asOf) ∨
        ((resolveUntil q now).isSome = true ∧
          unixNano (resolveUntil q now) ≠ unixNano src.untilT) ∨
        (q.resolution ≠ 0 ∧ q.resolution ≠ src.resolution) ∨
        q.groupByAll = false ∨ q.hasSpecificFields = true) ∧
    ((planStages q src now).dropWhile fun s => !isFlatten s).any isGroup = false := by
  constructor
  · have hmain : (planStages q src now).any isGroup =
        (((resolveAsOf q now).isSome && (unixNano (resolveAsOf q now) != unixNano src.asOf)) ||
          ((resolveUntil q now).isSome && (unixNano (resolveUntil q now) != unixNano src.untilT)) ||
          ((q.resolution != 0) && (q.resolution != src.resolution)) ||
          !q.groupByAll || q.hasSpecificFields) := by
      simp only [planStages, List.any_append]
      split_ifs <;> simp_all [isGroup] <;> tauto
    rw [hmain]
    simp only [Bool.or_eq_true, Bool.and_eq_true, bne_iff_ne, Bool.not_eq_true']
    tauto
  · simp only [planStages]
    split_ifs <;> simp [List.dropWhile, isFlatten, isGroup]

/-- C3: sub-query one-shot.  Over any sequence of `Include` invocations
(in the linearization order of the atomic compare-and-swap), the
sub-queries run exactly once as soon as there is at least one invocation —
during the first one, before its predicate evaluation — and never again:
the number of `runSubQueries` executions is `min n 1`. -/
theorem subqueries_run_once (runSub : Option SubErr) (whereEval : List Nat → Option Bool)
    (keys : List (List Nat)) :
    (includeTrace runSub whereEval keys false).2 = min keys.length 1 := by
  have hlatch : ∀ h k, (includeStep runSub whereEval h k).1 = true := by
    intro h k
    unfold includeStep
    split
    · rfl
    · cases runSub with
      | none => rfl
      | some e =>
        simp only
        split <;> rfl
  have hzero : ∀ ks, (includeTrace runSub whereEval ks true).2 = 0 := by
    intro ks
    induction ks with
    | nil => rfl
    | cons k rest ih => simp [includeTrace, hlatch, ih]
  cases keys with
  | nil => rfl
  | cons k rest =>
    simp [includeTrace, hlatch, hzero]

/-- C6: sub-query error handling at the filter predicate.  When the
predicate invocation that runs the sub-queries sees a deadline-exceeded
error it proceeds to evaluate the `Where` expression against the row's key
and returns that boolean with no error; any other sub-query error makes it
return `(false, err)`. -/
theorem subquery_error_handling (whereEval : List Nat → Option Bool) (key : List Nat)
    (m : String) :
    includeStep (some SubErr.deadlineExceeded) whereEval false key =
        (true, includeEval whereEval key, none) ∧
      includeStep (some (SubErr.otherErr m)) whereEval false key =
        (true, false, some (SubErr.otherErr m)) := by
  constructor
  · rfl
  · simp [includeStep]

/-- C7: nested FROM sub-queries.  If the parsed query declares a FROM
sub-query the builder cannot translate, `Plan` fails with the
`ErrNestedFromSubquery` sentinel; for a translatable one it recursively
plans the sub-query's SQL and uses an `Unflatten` configured with the
sub-query's declared fields over that recursive plan as the source. -/
theorem nested_from_subquery (opts : PlannerOpts) (fuel : Nat) (sql s : String)
    (q : PQuery) (flds : List String) (isrc : PlanSrc) (istages : List Stage) :
    (opts.parse sql = .ok q → q.fromSubQuery = some .untranslatable →
      plan opts (fuel + 1) sql = .error .nestedFromSubquery) ∧
    (opts.parse sql = .ok q → q.fromSubQuery = some (.translatable s flds) →
      plan opts fuel s = .ok (isrc, istages) →
      plan opts (fuel + 1) sql =
        .ok (.unflatten flds isrc istages,
          planStages q (opts.srcInfo (.unflatten flds isrc istages))
            (opts.now q.fromName))) := by
  constructor
  · intro hp hu
    simp [plan, hp, hu]
  · intro hp ht hsub
    simp [plan, hp, ht, hsub]

/-- A trivial parsed query used by the C7 witness. -/
def wqPlain : PQuery :=
  ⟨"t", none, none, none, 0, 0, 0, true, false, false, "", [], [], [], 0, 0⟩

/-- C7 witness query with a translatable FROM sub-query. -/
def wqOuter : PQuery := { wqPlain with fromSubQuery := some (.translatable "inner" ["a"]) }

/-- C7 witness query with an untranslatable FROM sub-query. -/
def wqBad : PQuery := { wqPlain with fromSubQuery := some .untranslatable }

/-- Concrete planner collaborators for the C7 witness. -/
def wopts : PlannerOpts :=
  ⟨fun s => if s = "outer" then .ok wqOuter else if s = "bad" then .ok wqBad else .ok wqPlain,
    fun _ => 0, fun _ => ⟨none, none, 0⟩⟩

/-- Witness for C7 on concrete queries. -/
theorem nested_from_subquery_witness :
    plan wopts 2 "bad" = .error .nestedFromSubquery ∧
      plan wopts 2 "outer" =
        .ok (.unflatten ["a"] (.table "t") [Stage.flattenStage],
          planStages wqOuter
            (wopts.srcInfo (.unflatten ["a"] (.table "t") [Stage.flattenStage]))
            (wopts.now wqOuter.fromName)) :=
  ⟨(nested_from_subquery wopts 1 "bad" "" wqBad [] (.table "t") []).1
      (by simp [wopts]) rfl,
    (nested_from_subquery wopts 1 "outer" "inner" wqOuter ["a"] (.table "t")
        [Stage.flattenStage]).2 (by simp [wopts]) rfl
      (by simp [plan, wopts, wqPlain, planStages, resolveAsOf, resolveUntil])⟩

end Zeno
